import Mathlib

/-!
Shallow embedding of the dermis value model and symbol interning subsystem
(src/value/number.rs, src/value/symbol/mod.rs, src/value/symbol/format.rs,
src/value/owned/symbol.rs, src/value/array.rs, src/value/object.rs,
src/value/value.rs, src/value/owned/value.rs, src/lib.rs).

Modelling conventions:
  * `f64` values are embedded as rationals (`ℚ`); no floating-point arithmetic
    is performed by the embedded code, only comparison and truncation, both of
    which agree with the rational order on finite doubles.
  * A `Weak<RwLock<SymbolTable>>` back-reference is embedded as a `Nat` table
    identity plus a liveness predicate `alive : Nat → Bool`; `Arc::ptr_eq`
    becomes equality of table identities and a successful `Weak::upgrade`
    becomes `alive t = true`.
  * Functions that can panic in Rust return `Option` in the symbol position;
    the validation panic fires before any table access and so returns the
    interpreter untouched (`(none, i)`), while the namespace-lookup `expect`
    panic inside `new_local` fires after `entry()` has inserted an empty
    bucket and so returns the correspondingly grown table with `none`.
  * `im::Vector` is embedded as `List`, `im::HashMap` as an association list
    whose lookups use the embedded key equality.
-/

namespace Dermis

/-! ### Number (src/value/number.rs)

`pub struct Number { pub val: f64 }` with hand-written `PartialEq`, `Eq`,
`Hash` and `Ord` that first cast `val as i64`, and a *derived* `PartialOrd`
that compares the raw float. -/

/-- Embeds `struct Number { pub val: f64 }`. -/
structure Number where
  val : ℚ
deriving DecidableEq

/-- Truncation of a rational toward zero, the rounding used by Rust's
`as i64` cast on floats. -/
def ratTrunc (q : ℚ) : Int :=
  if 0 ≤ q then ⌊q⌋ else ⌈q⌉

/-- Embeds the Rust saturating cast `val as i64`: truncate toward zero and
clamp into the `i64` range. -/
def f64AsI64 (q : ℚ) : Int :=
  max (-9223372036854775808) (min 9223372036854775807 (ratTrunc q))

/-- Embeds `impl PartialEq for Number`: `self.val as i64 == other.val as i64`. -/
def numberEq (a b : Number) : Bool :=
  f64AsI64 a.val == f64AsI64 b.val

/-- Embeds `impl Ord for Number`: `(self.val as i64).cmp(&(other.val as i64))`. -/
def numberCmp (a b : Number) : Ordering :=
  compare (f64AsI64 a.val) (f64AsI64 b.val)

/-- Embeds `impl Hash for Number`: the data fed to the hasher is
`self.val as i64`; two Numbers hash identically iff this value is equal. -/
def numberHashInput (a : Number) : Int :=
  f64AsI64 a.val

/-- Embeds the *derived* `PartialOrd for Number`, which compares the raw
`f64` field: the Rust comparison operators `<`, `<=`, `>`, `>=` use this. -/
def numberLt (a b : Number) : Bool :=
  decide (a.val < b.val)

/-! ### Symbols (src/value/symbol/mod.rs)

`enum Symbol { Local(LocalSymbol), Global(GlobalSymbol) }`; both structs carry
`name` and a `Weak<RwLock<SymbolTable>>`; `LocalSymbol` additionally carries
`namespace: Box<Symbol>`. The two structs are flattened into one inductive. -/

/-- Embeds the validation `name.contains(" ")` performed by all four symbol
constructors: the name holds a space character. -/
def hasSpace (name : String) : Bool :=
  name.data.contains ' '

/-- Embeds `enum Symbol`; `table` is the identity of the weakly referenced
symbol table. -/
inductive Symbol where
  | Global (name : String) (table : Nat)
  | Local (name : String) (ns : Symbol) (table : Nat)
deriving DecidableEq

/-- The table identity carried by a symbol's weak reference. -/
def tableOf : Symbol → Nat
  | .Global _ t => t
  | .Local _ _ t => t

/-- Embeds `Weak::upgrade`: succeeds (returning the table identity) only
while the owning runtime is alive. -/
def upgradeW (alive : Nat → Bool) (t : Nat) : Option Nat :=
  if alive t then some t else none

/-- Embeds the table comparison used by both `PartialEq` impls:
`self.symbol_table.upgrade().map(|s| other.symbol_table.upgrade()
.map(|o_s| Arc::ptr_eq(&s, &o_s)).unwrap_or(false)).unwrap_or(false)`. -/
def tableMatch (alive : Nat → Bool) (t₁ t₂ : Nat) : Bool :=
  (((upgradeW alive t₁).map (fun s =>
      (((upgradeW alive t₂).map (fun o => s == o)).getD false))).getD false)

/-- Embeds `PartialEq for GlobalSymbol` / `PartialEq for LocalSymbol`
(and the derived `PartialEq` on the `Symbol` enum, false across variants):
structural name/namespace equality plus identity of the two live tables. -/
def symbolEq (alive : Nat → Bool) : Symbol → Symbol → Bool
  | .Global n₁ t₁, .Global n₂ t₂ =>
      n₁ == n₂ && tableMatch alive t₁ t₂
  | .Local n₁ ns₁ t₁, .Local n₂ ns₂ t₂ =>
      n₁ == n₂ && symbolEq alive ns₁ ns₂ && tableMatch alive t₁ t₂
  | _, _ => false

/-- Embeds `Symbol::get_name`. -/
def Symbol.get_name : Symbol → String
  | .Global n _ => n
  | .Local n _ _ => n

/-! ### Symbol table and interpreter (src/lib.rs) -/

/-- Embeds `struct SymbolTable { global_symbols: Vec<Arc<String>>,
symbols: HashMap<Symbol, Vec<Arc<String>>> }`; the `HashMap` is embedded as
an association list whose lookups use `symbolEq`. -/
structure SymbolTable where
  global_symbols : List String
  symbols : List (Symbol × List String)
deriving DecidableEq

/-- Embeds `struct Interpreter { symbol_table: Arc<RwLock<SymbolTable>> }`;
`tableId` is the identity of the owned `Arc`. -/
structure Interpreter where
  tableId : Nat
  symbol_table : SymbolTable
deriving DecidableEq

/-- Embeds `Interpreter::new` (with an externally chosen fresh table
identity): the table starts empty. -/
def Interpreter.new (id : Nat) : Interpreter :=
  ⟨id, ⟨[], []⟩⟩

/-- Embeds `Symbol::new_global`: validate the name (the source panics on a
space, modelled by `(none, i)`), look the name up among the interned global
names, append it if absent, and wrap the result with the table reference. -/
def Symbol.new_global (name : String) (i : Interpreter) : Option Symbol × Interpreter :=
  if hasSpace name then (none, i)
  else if name ∈ i.symbol_table.global_symbols then
    (some (.Global name i.tableId), i)
  else
    (some (.Global name i.tableId),
      { i with symbol_table :=
          { i.symbol_table with
              global_symbols := i.symbol_table.global_symbols ++ [name] } })

/-- Embeds the `HashMap::entry(namespace)` lookup inside `Symbol::new_local`:
the first stored bucket whose key compares equal to `ns` under the symbol
equality of the moment. -/
def findBucket (alive : Nat → Bool) (xs : List (Symbol × List String)) (ns : Symbol) :
    Option (Symbol × List String) :=
  xs.find? (fun p => symbolEq alive p.1 ns)

/-- Appends `n` to the bucket of the first entry whose key compares equal to
`ns`; embeds the `get_mut(&namespace) ... push` step of `Symbol::new_local`. -/
def appendToBucket (alive : Nat → Bool) (xs : List (Symbol × List String))
    (ns : Symbol) (n : String) : List (Symbol × List String) :=
  match xs with
  | [] => []
  | p :: rest =>
      if symbolEq alive p.1 ns then (p.1, p.2 ++ [n]) :: rest
      else p :: appendToBucket alive rest ns n

/-- Embeds `Symbol::new_local`: validate the name, then intern it through the
source's two table accesses. `entry(namespace).or_insert_with(|| vec![])`
returns the bucket of the first key equal to `namespace` or inserts an empty
one, and the name is searched in that bucket; when the name is absent,
`get_mut(&namespace).expect(..)` looks the namespace up *again* and pushes
the name. When no stored key matched and the namespace key is not equal to
itself (a dead table anywhere in its chain makes `symbolEq` irreflexive),
that second lookup cannot find the bucket `entry` just inserted, so the
`expect` panics — modelled by `none` — leaving the freshly inserted empty
bucket in the table. When a bucket was found, the second lookup runs on the
same state with the same equality and deterministically finds the same first
matching bucket, so the name is pushed into it (`appendToBucket`). -/
def Symbol.new_local (alive : Nat → Bool) (name : String) (ns : Symbol)
    (i : Interpreter) : Option Symbol × Interpreter :=
  if hasSpace name then (none, i)
  else
    match findBucket alive i.symbol_table.symbols ns with
    | none =>
        if symbolEq alive ns ns then
          (some (.Local name ns i.tableId),
            { i with symbol_table :=
                { i.symbol_table with
                    symbols := i.symbol_table.symbols ++ [(ns, [name])] } })
        else
          (none,
            { i with symbol_table :=
                { i.symbol_table with
                    symbols := i.symbol_table.symbols ++ [(ns, [])] } })
    | some p =>
        if name ∈ p.2 then (some (.Local name ns i.tableId), i)
        else
          (some (.Local name ns i.tableId),
            { i with symbol_table :=
                { i.symbol_table with
                    symbols := appendToBucket alive i.symbol_table.symbols ns name } })

/-! ### Owned symbols (src/value/owned/symbol.rs) -/

/-- Embeds `enum OwnedSymbol { Local(LocalOwnedSymbol), Global(GlobalOwnedSymbol) }`:
same shape as `Symbol` but with no table reference. -/
inductive OwnedSymbol where
  | Global (name : String)
  | Local (name : String) (ns : OwnedSymbol)
deriving DecidableEq

/-- Embeds `OwnedSymbol::new_global`: validates that the name contains no
space (the source panics, modelled by `none`). -/
def OwnedSymbol.new_global (name : String) : Option OwnedSymbol :=
  if hasSpace name then none else some (.Global name)

/-- Embeds `OwnedSymbol::new_local`: same validation as `new_global`. -/
def OwnedSymbol.new_local (name : String) (ns : OwnedSymbol) : Option OwnedSymbol :=
  if hasSpace name then none else some (.Local name ns)

/-- Embeds `OwnedSymbol::get_name`. -/
def OwnedSymbol.get_name : OwnedSymbol → String
  | .Global n => n
  | .Local n _ => n

/-! ### Symbol formatting (src/value/symbol/format.rs) -/

/-- Embeds `enum SymbolFormat<'a> { Global(&'a str), Local(&'a str, Box<SymbolFormat>),
Anonymous }`. -/
inductive SymbolFormat where
  | Global (name : String)
  | Local (name : String) (ns : SymbolFormat)
  | Anonymous
deriving DecidableEq

/-- Embeds `SymbolFormat::fmt_`: a global renders as an apostrophe followed by
the name, a local renders its namespace then `::name`, and the anonymous
sentinel renders as apostrophe-underscore. -/
def SymbolFormat.render : SymbolFormat → String
  | .Global n => "\x27" ++ n
  | .Local n ns => ns.render ++ "::" ++ n
  | .Anonymous => "\x27_"

/-- Embeds `From<&Symbol> for SymbolFormat`. -/
def Symbol.toFormat : Symbol → SymbolFormat
  | .Global n _ => .Global n
  | .Local n ns _ => .Local n ns.toFormat

/-- Embeds `impl Display for Symbol` (which writes the `SymbolFormat`). -/
def Symbol.display (s : Symbol) : String :=
  s.toFormat.render

/-- Embeds `From<&OwnedSymbol> for SymbolFormat`. -/
def OwnedSymbol.toFormat : OwnedSymbol → SymbolFormat
  | .Global n => .Global n
  | .Local n ns => .Local n ns.toFormat

/-- Embeds `impl Display for OwnedSymbol`. -/
def OwnedSymbol.display (s : OwnedSymbol) : String :=
  s.toFormat.render

/-! ### Symbol conversions (src/value/owned/symbol.rs, src/value/symbol/mod.rs) -/

/-- Embeds `impl From<Symbol> for OwnedSymbol`, exactly as written in the
source: `OwnedSymbol::new_global(val.get_name().to_string())` (the source
carries a `TODO: Fix for locals` comment; the namespace of a local symbol is
discarded). -/
def ownedFromSymbol (s : Symbol) : Option OwnedSymbol :=
  OwnedSymbol.new_global s.get_name

/-- Embeds `From<(&OwnedSymbol, &mut Interpreter)> for Symbol`
(`Symbol::from_owned`): a global is re-interned with `new_global`; a local
first converts its namespace chain recursively, then interns with
`new_local`. -/
def Symbol.from_owned (alive : Nat → Bool) :
    OwnedSymbol → Interpreter → Option Symbol × Interpreter
  | .Global n, i => Symbol.new_global n i
  | .Local n ns, i =>
      match Symbol.from_owned alive ns i with
      | (none, i') => (none, i')
      | (some nsSym, i') => Symbol.new_local alive n nsSym i'

/-! ### Values (src/value/value.rs, src/value/array.rs, src/value/object.rs)

`enum Value { Number, String, Symbol, Array, Object }` with
`Array(pub Vector<Value>)` embedded as `List Value` and
`Object(pub HashMap<Value, Value>)` embedded as `List (Value × Value)`. -/

/-- Embeds `enum Value`. -/
inductive Value where
  | number (n : Number)
  | string (s : String)
  | symbol (s : Symbol)
  | array (a : List Value)
  | object (o : List (Value × Value))

/-- Embeds `get_null` (src/value/object.rs): the canonical null is an empty
`Value::Object`. -/
def getNull : Value :=
  .object []

mutual

/-- Embeds the derived `PartialEq for Value`: variant-wise equality, using the
truncating `Number` equality, string equality, the table-aware `Symbol`
equality, element-wise `im::Vector` equality and content-wise `im::HashMap`
equality. -/
def valueBEq (alive : Nat → Bool) : Value → Value → Bool
  | .number a, .number b => numberEq a b
  | .string a, .string b => a == b
  | .symbol a, .symbol b => symbolEq alive a b
  | .array a, .array b => listValueBEq alive a b
  | .object a, .object b => a.length == b.length && submapValueBEq alive a b
  | _, _ => false
termination_by a b => sizeOf a + sizeOf b

/-- Element-wise equality of two embedded `im::Vector<Value>`s. -/
def listValueBEq (alive : Nat → Bool) : List Value → List Value → Bool
  | [], [] => true
  | x :: xs, y :: ys => valueBEq alive x y && listValueBEq alive xs ys
  | _, _ => false
termination_by a b => sizeOf a + sizeOf b

/-- One inclusion of the content-wise `im::HashMap` equality: every entry of
the first map is present, with an equal value, in the second. -/
def submapValueBEq (alive : Nat → Bool) :
    List (Value × Value) → List (Value × Value) → Bool
  | [], _ => true
  | (k, v) :: rest, other =>
      lookupValueBEq alive other k v && submapValueBEq alive rest other
termination_by a b => sizeOf a + sizeOf b

/-- Looks `k` up in an embedded map and compares the stored value with `v`
(the `other.get(k) == Some(v)` step of the `im::HashMap` equality). -/
def lookupValueBEq (alive : Nat → Bool) :
    List (Value × Value) → Value → Value → Bool
  | [], _, _ => false
  | (k₂, v₂) :: rest, k, v =>
      if valueBEq alive k₂ k then valueBEq alive v v₂
      else lookupValueBEq alive rest k v
termination_by l k v => sizeOf l + sizeOf k + sizeOf v

end

/-! ### Array operations (src/value/array.rs) -/

/-- Embeds `Array::get`: `self.0.get(index).unwrap_or_else(|| get_null())`. -/
def arrayGet (a : List Value) (i : Nat) : Value :=
  (a.get? i).getD getNull

/-- Embeds `Array::get_opt`: `self.0.get(index)`. -/
def arrayGetOpt (a : List Value) (i : Nat) : Option Value :=
  a.get? i

/-- Embeds `Array::push_back`: `Array(self.0.push_back(value))`, a pure
operation on `&self` returning a new vector. -/
def arrayPushBack (a : List Value) (v : Value) : List Value :=
  a ++ [v]

/-! ### Object operations (src/value/object.rs) -/

/-- Embeds the `im::HashMap::get` lookup used by `Object::get` and
`Object::get_opt`: the value of the first entry whose key compares equal to
`k` under the `Value` equality. -/
def objectLookup (alive : Nat → Bool) (o : List (Value × Value)) (k : Value) :
    Option Value :=
  match o with
  | [] => none
  | (k₂, v₂) :: rest =>
      if valueBEq alive k₂ k then some v₂ else objectLookup alive rest k

/-- Embeds `Object::get`: `self.0.get(key).unwrap_or_else(|| get_null())`. -/
def objectGet (alive : Nat → Bool) (o : List (Value × Value)) (k : Value) : Value :=
  (objectLookup alive o k).getD getNull

/-- Embeds `Object::get_opt`: `self.0.get(k)`. -/
def objectGetOpt (alive : Nat → Bool) (o : List (Value × Value)) (k : Value) :
    Option Value :=
  objectLookup alive o k

/-! ### Owned values (src/value/owned/value.rs, owned/array.rs, owned/object.rs) -/

/-- Embeds `enum OwnedValue`. -/
inductive OwnedValue where
  | number (n : Number)
  | string (s : String)
  | symbol (s : OwnedSymbol)
  | array (a : List OwnedValue)
  | object (o : List (OwnedValue × OwnedValue))

mutual

/-- Embeds `From<Value> for OwnedValue`: numbers and strings are copied,
symbols go through `From<Symbol> for OwnedSymbol` (which can panic on a
space, hence `Option`), arrays and objects convert element-wise. -/
def valueToOwned : Value → Option OwnedValue
  | .number n => some (.number n)
  | .string s => some (.string s)
  | .symbol s => (ownedFromSymbol s).map .symbol
  | .array a => (listToOwned a).map .array
  | .object o => (pairsToOwned o).map .object
termination_by v => sizeOf v

/-- Embeds `From<Array> for OwnedArray`: element-wise conversion. -/
def listToOwned : List Value → Option (List OwnedValue)
  | [] => some []
  | v :: rest =>
      match valueToOwned v, listToOwned rest with
      | some v', some rest' => some (v' :: rest')
      | _, _ => none
termination_by l => sizeOf l

/-- Embeds `From<Object> for OwnedObject`: entry-wise conversion. -/
def pairsToOwned : List (Value × Value) → Option (List (OwnedValue × OwnedValue))
  | [] => some []
  | (k, v) :: rest =>
      match valueToOwned k, valueToOwned v, pairsToOwned rest with
      | some k', some v', some rest' => some ((k', v') :: rest')
      | _, _, _ => none
termination_by l => sizeOf l

end

/-! ### Table growth order, for the interning-monotonicity claims -/

/-- The table `t₁` is contained in `t₂`: the interned global names of `t₁`
are a prefix of those of `t₂`, and every namespace bucket of `t₁` is present
in `t₂` with its names as a prefix. No core operation ever shrinks a table
under this order. -/
def tableLE (t₁ t₂ : SymbolTable) : Prop :=
  t₁.global_symbols <+: t₂.global_symbols ∧
    ∀ p ∈ t₁.symbols, ∃ b₂, (p.1, b₂) ∈ t₂.symbols ∧ p.2 <+: b₂

/-! ### Helper lemmas -/

theorem tableMatch_false_left (alive : Nat → Bool) (t₁ t₂ : Nat)
    (h : alive t₁ = false) : tableMatch alive t₁ t₂ = false := by
  simp [tableMatch, upgradeW, h]

theorem tableMatch_false_right (alive : Nat → Bool) (t₁ t₂ : Nat)
    (h : alive t₂ = false) : tableMatch alive t₁ t₂ = false := by
  cases h₁ : alive t₁ <;> simp [tableMatch, upgradeW, h, h₁]

theorem tableMatch_false_of_ne (alive : Nat → Bool) (t₁ t₂ : Nat)
    (h : t₁ ≠ t₂) : tableMatch alive t₁ t₂ = false := by
  cases h₁ : alive t₁ <;> cases h₂ : alive t₂ <;>
    simp [tableMatch, upgradeW, h₁, h₂, h]

theorem symbolEq_false_of_dead_left (alive : Nat → Bool) (s t : Symbol)
    (h : alive (tableOf s) = false) : symbolEq alive s t = false := by
  cases s <;> cases t <;>
    simp [symbolEq, tableOf] at h ⊢ <;>
    simp [tableMatch_false_left _ _ _ h]

theorem symbolEq_false_of_dead_right (alive : Nat → Bool) (s t : Symbol)
    (h : alive (tableOf t) = false) : symbolEq alive s t = false := by
  cases s <;> cases t <;>
    simp [symbolEq, tableOf] at h ⊢ <;>
    simp [tableMatch_false_right _ _ _ h]

theorem symbolEq_false_of_table_ne (alive : Nat → Bool) (s t : Symbol)
    (h : tableOf s ≠ tableOf t) : symbolEq alive s t = false := by
  cases s <;> cases t <;>
    simp [symbolEq, tableOf] at h ⊢ <;>
    simp [tableMatch_false_of_ne _ _ _ h]

theorem new_global_fst_none (n : String) (i : Interpreter)
    (h : hasSpace n = true) : (Symbol.new_global n i).1 = none := by
  simp [Symbol.new_global, h]

theorem new_global_fst_some (n : String) (i : Interpreter)
    (h : hasSpace n = false) :
    (Symbol.new_global n i).1 = some (.Global n i.tableId) := by
  simp only [Symbol.new_global, h, Bool.false_eq_true, if_false]
  split <;> rfl

theorem tableLE_refl (t : SymbolTable) : tableLE t t :=
  ⟨List.prefix_rfl, fun p hp => ⟨p.2, by simpa using hp, List.prefix_rfl⟩⟩

theorem appendToBucket_grows (alive : Nat → Bool) (ns : Symbol) (n : String) :
    ∀ (xs : List (Symbol × List String)), ∀ p ∈ xs,
      ∃ b₂, (p.1, b₂) ∈ appendToBucket alive xs ns n ∧ p.2 <+: b₂
  | [], p, hp => absurd hp (List.not_mem_nil p)
  | q :: rest, p, hp => by
      cases hEq : symbolEq alive q.1 ns
      · rcases List.mem_cons.mp hp with rfl | hmem
        · exact ⟨p.2, by simp [appendToBucket, hEq], List.prefix_rfl⟩
        · obtain ⟨b₂, hb, hpre⟩ := appendToBucket_grows alive ns n rest p hmem
          exact ⟨b₂, by simp [appendToBucket, hEq, hb], hpre⟩
      · rcases List.mem_cons.mp hp with rfl | hmem
        · exact ⟨p.2 ++ [n], by simp [appendToBucket, hEq], List.prefix_append _ _⟩
        · exact ⟨p.2, by simp [appendToBucket, hEq, List.mem_cons.mpr (Or.inr hmem)],
            List.prefix_rfl⟩

theorem findBucket_appendToBucket (alive : Nat → Bool) (ns : Symbol) (n : String) :
    ∀ (xs : List (Symbol × List String)) (q : Symbol × List String),
      findBucket alive xs ns = some q →
      findBucket alive (appendToBucket alive xs ns n) ns = some (q.1, q.2 ++ [n])
  | [], q, h => by simp [findBucket] at h
  | p :: rest, q, h => by
      cases hEq : symbolEq alive p.1 ns
      · rw [findBucket, List.find?_cons_of_neg _ (by simp [hEq])] at h
        have ih := findBucket_appendToBucket alive ns n rest q h
        simp only [appendToBucket, hEq, Bool.false_eq_true, if_false]
        rw [findBucket, List.find?_cons_of_neg _ (by simp [hEq])]
        exact ih
      · rw [findBucket, List.find?_cons_of_pos _ (by simp [hEq])] at h
        cases Option.some.inj h
        simp only [appendToBucket, hEq, if_true]
        rw [findBucket, List.find?_cons_of_pos _ (by simp [hEq])]

/-! ### Claim theorems -/

/-- C2, counterexample: the claim states that the ordering comparison of two
Numbers, *including the comparison operators*, equals the integer comparison
of the truncated values. The comparison operators use the derived
`PartialOrd`, which compares the raw float: for `a = 12.0` and `b = 12.5`
the operator `a < b` is true while the truncated integer comparison of the
pair is `Ordering.eq`, so the claim as stated is false. -/
theorem number_operator_cmp_counterexample :
    numberLt ⟨12⟩ ⟨25/2⟩ = true ∧ numberCmp ⟨12⟩ ⟨25/2⟩ = Ordering.eq := by
  constructor
  · norm_num [numberLt]
  · norm_num [numberCmp, f64AsI64, ratTrunc, compare, compareOfLessAndEq]

/-- C2, amended: equality, `Ord::cmp` ordering, and hashing of `Number` are
all computed from the stored float truncated to a 64-bit integer — `a == b`
iff `int64(a.val) == int64(b.val)`, `cmp` equals the integer comparison, and
equal truncations hash identically (in particular `Number::from(12.9) ==
Number::from(12.0)`) — while the comparison operators, which go through the
*derived* `PartialOrd`, compare the raw float value instead. -/
theorem number_truncating_semantics (a b : Number) :
    (numberEq a b = true ↔ f64AsI64 a.val = f64AsI64 b.val) ∧
    numberCmp a b = compare (f64AsI64 a.val) (f64AsI64 b.val) ∧
    (numberHashInput a = numberHashInput b ↔ f64AsI64 a.val = f64AsI64 b.val) ∧
    (numberLt a b = true ↔ a.val < b.val) ∧
    numberEq ⟨129/10⟩ ⟨12⟩ = true := by
  refine ⟨by simp [numberEq], rfl, Iff.rfl, by simp [numberLt], ?_⟩
  norm_num [numberEq, f64AsI64, ratTrunc]

/-- C9: a global symbol named `foo` displays as apostrophe-`foo`; a local
symbol displays its namespace chain joined with `::`, rooted at the
apostrophe-prefixed global name, for any nesting depth; `OwnedSymbol`
formats identically. -/
theorem symbol_display_format :
    (∀ t, Symbol.display (.Global "foo" t) = "\x27foo") ∧
    (∀ t t', Symbol.display (.Local "bar" (.Global "foo" t) t') = "\x27foo::bar") ∧
    (∀ t t' t'',
      Symbol.display (.Local "baz" (.Local "bar" (.Global "foo" t) t') t'') =
        "\x27foo::bar::baz") ∧
    (∀ (n : String) (ns : Symbol) (t : Nat),
      Symbol.display (.Local n ns t) = Symbol.display ns ++ "::" ++ n) ∧
    (∀ n : String, Symbol.display (.Global n 0) = OwnedSymbol.display (.Global n)) ∧
    (∀ n : String, OwnedSymbol.display (.Global n) = "\x27" ++ n) ∧
    (∀ (n : String) (ns : OwnedSymbol),
      OwnedSymbol.display (.Local n ns) = OwnedSymbol.display ns ++ "::" ++ n) := by
  exact ⟨fun _ => rfl, fun _ _ => rfl, fun _ _ _ => rfl, fun _ _ _ => rfl,
    fun _ => rfl, fun _ => rfl, fun _ _ => rfl⟩

/-- C10: when construction fails because the name holds a space, the
validation happens before any table access, so the interpreter (and its
symbol table) is returned entirely unchanged. -/
theorem failed_construction_leaves_table (alive : Nat → Bool) (n : String)
    (ns : Symbol) (i : Interpreter) (h : hasSpace n = true) :
    (Symbol.new_global n i).2 = i ∧ (Symbol.new_local alive n ns i).2 = i := by
  simp [Symbol.new_global, Symbol.new_local, h]

/-- C10, witness: a name with a space at a concrete interpreter. -/
theorem failed_construction_leaves_table_witness :
    hasSpace " a" = true ∧
    (Symbol.new_global " a" (Interpreter.new 0)).2 = Interpreter.new 0 ∧
    (Symbol.new_local (fun _ => true) " a" (.Global "g" 0) (Interpreter.new 0)).2 =
      Interpreter.new 0 :=
  ⟨by decide,
    failed_construction_leaves_table (fun _ => true) " a" (.Global "g" 0)
      (Interpreter.new 0) (by decide)⟩

/-- C6, counterexample: the claim states that `Symbol::new_local` fails if
and only if the name contains a space. With the space-free name `x`, an
empty table, and a namespace symbol whose table 0 is dead, construction
nevertheless fails: `entry()` inserts a fresh empty bucket, the name search
in it finds nothing, and `get_mut(&namespace)` cannot find the just-inserted
key (a dead-table symbol is not equal to itself), so the source's `expect`
panics. -/
theorem symbol_name_validation_counterexample :
    hasSpace "x" = false ∧
    (Symbol.new_local (fun t => t == 1) "x" (.Global "g" 0)
        (Interpreter.new 1)).1 = none := by
  decide

/-- C6, amended: `Symbol::new_global`, `OwnedSymbol::new_global` and
`OwnedSymbol::new_local` fail exactly when the name contains a space
character; `Symbol::new_local` fails on a space, and additionally panics on
its namespace-lookup `expect` when no stored bucket matches the namespace
and the namespace key is not self-equal under the table's symbol equality
(a dead table in its chain); for a space-free name it succeeds whenever the
namespace key is self-equal (and also whenever its bucket already exists). -/
theorem symbol_name_validation (alive : Nat → Bool) (n : String) (ns : Symbol)
    (ons : OwnedSymbol) (i : Interpreter) :
    ((Symbol.new_global n i).1 = none ↔ hasSpace n = true) ∧
    (OwnedSymbol.new_global n = none ↔ hasSpace n = true) ∧
    (OwnedSymbol.new_local n ons = none ↔ hasSpace n = true) ∧
    ((Symbol.new_local alive n ns i).1 = none ↔
      (hasSpace n = true ∨
        (findBucket alive i.symbol_table.symbols ns = none ∧
          symbolEq alive ns ns = false))) ∧
    (hasSpace n = false →
      (Symbol.new_global n i).1 = some (.Global n i.tableId) ∧
      OwnedSymbol.new_global n = some (.Global n) ∧
      OwnedSymbol.new_local n ons = some (.Local n ons) ∧
      (symbolEq alive ns ns = true →
        (Symbol.new_local alive n ns i).1 = some (.Local n ns i.tableId))) := by
  have hl : hasSpace n = false → symbolEq alive ns ns = true →
      (Symbol.new_local alive n ns i).1 = some (.Local n ns i.tableId) := by
    intro h hself
    cases hfb : findBucket alive i.symbol_table.symbols ns with
    | none => simp [Symbol.new_local, h, hfb, hself]
    | some p => by_cases hmem : n ∈ p.2 <;> simp [Symbol.new_local, h, hfb, hmem]
  cases h : hasSpace n
  · refine ⟨by simp [new_global_fst_some n i h],
      by simp [OwnedSymbol.new_global, h], by simp [OwnedSymbol.new_local, h], ?_,
      fun _ => ⟨new_global_fst_some n i h, by simp [OwnedSymbol.new_global, h],
        by simp [OwnedSymbol.new_local, h], hl h⟩⟩
    cases hfb : findBucket alive i.symbol_table.symbols ns with
    | none => cases hself : symbolEq alive ns ns <;>
        simp [Symbol.new_local, h, hfb, hself]
    | some p => by_cases hmem : n ∈ p.2 <;> simp [Symbol.new_local, h, hfb, hmem]
  · refine ⟨?_, ?_, ?_, ?_, by simp [h]⟩ <;>
      simp [Symbol.new_global, Symbol.new_local, OwnedSymbol.new_global,
        OwnedSymbol.new_local, h]

/-- C6, witness: the space-free name `x` with a live self-equal namespace at
a concrete interpreter; the witness discharges the space hypothesis and the
self-equality hypothesis of the success implication. -/
theorem symbol_name_validation_witness :
    hasSpace "x" = false ∧
    (Symbol.new_global "x" (Interpreter.new 0)).1 = some (.Global "x" 0) ∧
    OwnedSymbol.new_global "x" = some (.Global "x") ∧
    OwnedSymbol.new_local "x" (.Global "g") = some (.Local "x" (.Global "g")) ∧
    (Symbol.new_local (fun _ => true) "x" (.Global "g" 0) (Interpreter.new 0)).1 =
      some (.Local "x" (.Global "g" 0) 0) :=
  have happ := (symbol_name_validation (fun _ => true) "x" (.Global "g" 0)
    (.Global "g") (Interpreter.new 0)).2.2.2.2 (by decide)
  ⟨by decide, happ.1, happ.2.1, happ.2.2.1, happ.2.2.2 (by decide)⟩

/-- C4: if either side's weak table reference can no longer be upgraded, the
symbol equality returns false — including a dead symbol compared with
itself. (The Rust comparison is a total function of the upgrade results and
cannot panic; the embedding is correspondingly total.) -/
theorem dead_table_never_equal (alive : Nat → Bool) (s t : Symbol)
    (h : alive (tableOf s) = false) :
    symbolEq alive s t = false ∧ symbolEq alive t s = false ∧
      symbolEq alive s s = false :=
  ⟨symbolEq_false_of_dead_left alive s t h,
    symbolEq_false_of_dead_right alive t s h,
    symbolEq_false_of_dead_left alive s s h⟩

/-- C4, witness: a symbol whose table 0 is dead, compared against a live
structurally identical symbol and against itself. -/
theorem dead_table_never_equal_witness :
    (fun t => t == 1) (tableOf (Symbol.Global "x" 0)) = false ∧
    symbolEq (fun t => t == 1) (.Global "x" 0) (.Global "x" 1) = false ∧
    symbolEq (fun t => t == 1) (.Global "x" 1) (.Global "x" 0) = false ∧
    symbolEq (fun t => t == 1) (.Global "x" 0) (.Global "x" 0) = false :=
  ⟨by decide,
    dead_table_never_equal (fun t => t == 1) (.Global "x" 0) (.Global "x" 1)
      (by decide)⟩

/-- C3: interning the same space-free name into two distinct runtimes yields
symbols that are not equal even though they display identically; more
generally any two symbols carrying distinct table identities — in particular
local symbols with identical name/namespace chains minted from different
runtimes — compare unequal. -/
theorem cross_runtime_symbols_distinct (alive : Nat → Bool) (n : String)
    (i₁ i₂ : Interpreter) (s₁ s₂ : Symbol)
    (hne : i₁.tableId ≠ i₂.tableId)
    (h₁ : (Symbol.new_global n i₁).1 = some s₁)
    (h₂ : (Symbol.new_global n i₂).1 = some s₂) :
    symbolEq alive s₁ s₂ = false ∧ Symbol.display s₁ = Symbol.display s₂ ∧
      ∀ u₁ u₂ : Symbol, tableOf u₁ ≠ tableOf u₂ → symbolEq alive u₁ u₂ = false := by
  cases hs : hasSpace n
  · rw [new_global_fst_some n i₁ hs] at h₁
    rw [new_global_fst_some n i₂ hs] at h₂
    cases Option.some.inj h₁
    cases Option.some.inj h₂
    exact ⟨symbolEq_false_of_table_ne alive _ _ hne, rfl,
      fun u₁ u₂ h => symbolEq_false_of_table_ne alive u₁ u₂ h⟩
  · rw [new_global_fst_none n i₁ hs] at h₁
    exact absurd h₁ (by simp)

/-- C3, witness: the name `x` interned into runtimes 0 and 1. -/
theorem cross_runtime_symbols_distinct_witness :
    (Interpreter.new 0).tableId ≠ (Interpreter.new 1).tableId ∧
    (Symbol.new_global "x" (Interpreter.new 0)).1 = some (.Global "x" 0) ∧
    (Symbol.new_global "x" (Interpreter.new 1)).1 = some (.Global "x" 1) ∧
    symbolEq (fun _ => true) (.Global "x" 0) (.Global "x" 1) = false ∧
    Symbol.display (.Global "x" 0) = Symbol.display (.Global "x" 1) :=
  ⟨by decide, rfl, rfl,
    (cross_runtime_symbols_distinct (fun _ => true) "x" (Interpreter.new 0)
      (Interpreter.new 1) _ _ (by decide) rfl rfl).1,
    (cross_runtime_symbols_distinct (fun _ => true) "x" (Interpreter.new 0)
      (Interpreter.new 1) _ _ (by decide) rfl rfl).2.1⟩

/-- C7: an out-of-range `Array::get` and a missing-key `Object::get` both
produce the canonical empty-object null; the `_opt` variants return `none`
exactly in those sentinel cases and `some` of the stored value otherwise. -/
theorem get_absent_defaults_null (alive : Nat → Bool) (a : List Value) (j : Nat)
    (o : List (Value × Value)) (k : Value) :
    (a.length ≤ j → arrayGet a j = getNull) ∧
    (arrayGetOpt a j = none ↔ a.length ≤ j) ∧
    (∀ v, arrayGetOpt a j = some v → arrayGet a j = v) ∧
    (objectLookup alive o k = none →
      objectGet alive o k = getNull ∧ objectGetOpt alive o k = none) ∧
    (∀ v, objectLookup alive o k = some v →
      objectGet alive o k = v ∧ objectGetOpt alive o k = some v) := by
  refine ⟨?_, ?_, ?_, ?_, ?_⟩
  · intro h
    simp [arrayGet, List.getElem?_eq_none h, getNull]
  · simp [arrayGetOpt, List.get?_eq_none]
  · intro v h
    simp [arrayGet, arrayGetOpt] at h ⊢
    simp [h]
  · intro h
    simp [objectGet, objectGetOpt, h]
  · intro v h
    simp [objectGet, objectGetOpt, h]

/-- C7, witness: the empty array read at index 5 and an object probed for an
absent key, plus a present key. -/
theorem get_absent_defaults_null_witness :
    ([] : List Value).length ≤ 5 ∧
    arrayGet [] 5 = getNull ∧
    objectLookup (fun _ => true) [] (.string "k") = none ∧
    objectGet (fun _ => true) [] (.string "k") = getNull :=
  ⟨by decide,
    (get_absent_defaults_null (fun _ => true) [] 5 [] (.string "k")).1 (by decide),
    rfl,
    ((get_absent_defaults_null (fun _ => true) [] 5 [] (.string "k")).2.2.2.1
      rfl).1⟩

/-- C8: `Array::push_back` is a pure operation on `&self` (the receiver is
embedded unchanged); the returned array is one element longer, keeps every
element of the receiver at its old index, and ends with the pushed value. -/
theorem push_back_persistent (a : List Value) (v : Value) :
    (arrayPushBack a v).length = a.length + 1 ∧
    (∀ j, j < a.length → arrayGet (arrayPushBack a v) j = arrayGet a j) ∧
    arrayGet (arrayPushBack a v) a.length = v := by
  refine ⟨by simp [arrayPushBack], ?_, ?_⟩
  · intro j hj
    simp [arrayPushBack, arrayGet, List.getElem?_append_left hj]
  · simp [arrayPushBack, arrayGet, List.getElem?_concat_length]

/-- C8, witness: pushing onto a concrete one-element array. -/
theorem push_back_persistent_witness :
    (arrayPushBack [Value.string "a"] (.string "b")).length = 2 ∧
    (0 < ([Value.string "a"] : List Value).length ∧
      arrayGet (arrayPushBack [Value.string "a"] (.string "b")) 0 =
        arrayGet [Value.string "a"] 0) ∧
    arrayGet (arrayPushBack [Value.string "a"] (.string "b")) 1 = .string "b" :=
  ⟨(push_back_persistent [Value.string "a"] (.string "b")).1,
    ⟨by decide,
      (push_back_persistent [Value.string "a"] (.string "b")).2.1 0 (by decide)⟩,
    (push_back_persistent [Value.string "a"] (.string "b")).2.2⟩

/-- C5: interning is content-addressed and the table grows monotonically:
`new_global` appends the name only when absent (otherwise the table is
untouched and the existing entry is reused); `new_local` does the same
within its namespace's bucket, creating the bucket on first use of a
namespace — the name lands in it when the namespace key is self-equal, and
on the source's namespace-lookup panic path (dead table chain) the freshly
created bucket stays empty — and both operations only ever extend the table
(`tableLE`): no entry is ever removed, on any path. -/
theorem symbol_interning_monotone (alive : Nat → Bool) (n : String) (ns : Symbol)
    (i : Interpreter) (h : hasSpace n = false) :
    (n ∈ i.symbol_table.global_symbols → (Symbol.new_global n i).2 = i) ∧
    (n ∉ i.symbol_table.global_symbols →
      (Symbol.new_global n i).2.symbol_table.global_symbols =
        i.symbol_table.global_symbols ++ [n] ∧
      (Symbol.new_global n i).2.symbol_table.symbols = i.symbol_table.symbols) ∧
    (findBucket alive i.symbol_table.symbols ns = none →
      symbolEq alive ns ns = true →
      (Symbol.new_local alive n ns i).2.symbol_table.symbols =
        i.symbol_table.symbols ++ [(ns, [n])] ∧
      (Symbol.new_local alive n ns i).2.symbol_table.global_symbols =
        i.symbol_table.global_symbols) ∧
    (findBucket alive i.symbol_table.symbols ns = none →
      symbolEq alive ns ns = false →
      (Symbol.new_local alive n ns i).1 = none ∧
      (Symbol.new_local alive n ns i).2.symbol_table.symbols =
        i.symbol_table.symbols ++ [(ns, [])] ∧
      (Symbol.new_local alive n ns i).2.symbol_table.global_symbols =
        i.symbol_table.global_symbols) ∧
    (∀ q, findBucket alive i.symbol_table.symbols ns = some q →
      (n ∈ q.2 → (Symbol.new_local alive n ns i).2 = i) ∧
      (n ∉ q.2 →
        findBucket alive (Symbol.new_local alive n ns i).2.symbol_table.symbols ns =
          some (q.1, q.2 ++ [n]))) ∧
    tableLE i.symbol_table (Symbol.new_global n i).2.symbol_table ∧
    tableLE i.symbol_table (Symbol.new_local alive n ns i).2.symbol_table := by
  refine ⟨?_, ?_, ?_, ?_, ?_, ?_, ?_⟩
  · intro hmem
    simp [Symbol.new_global, h, hmem]
  · intro hmem
    simp [Symbol.new_global, h, hmem]
  · intro hfb hself
    simp [Symbol.new_local, h, hfb, hself]
  · intro hfb hself
    simp [Symbol.new_local, h, hfb, hself]
  · intro q hfb
    refine ⟨fun hmem => by simp [Symbol.new_local, h, hfb, hmem], fun hmem => ?_⟩
    simp only [Symbol.new_local, h, Bool.false_eq_true, if_false, hfb, hmem]
    exact findBucket_appendToBucket alive ns n _ q hfb
  · by_cases hmem : n ∈ i.symbol_table.global_symbols
    · simpa [Symbol.new_global, h, hmem] using tableLE_refl i.symbol_table
    · simp only [Symbol.new_global, h, Bool.false_eq_true, if_false, hmem]
      exact ⟨List.prefix_append _ _, fun p hp => ⟨p.2, by simpa using hp, List.prefix_rfl⟩⟩
  · cases hfb : findBucket alive i.symbol_table.symbols ns with
    | none =>
        cases hself : symbolEq alive ns ns <;>
          · simp only [Symbol.new_local, h, Bool.false_eq_true, if_false, hfb, hself]
            exact ⟨List.prefix_rfl,
              fun p hp => ⟨p.2, List.mem_append_left _ (by simpa using hp),
                List.prefix_rfl⟩⟩
    | some q =>
        by_cases hmem : n ∈ q.2
        · simpa [Symbol.new_local, h, hfb, hmem] using tableLE_refl i.symbol_table
        · simp only [Symbol.new_local, h, Bool.false_eq_true, if_false, hfb, hmem]
          exact ⟨List.prefix_rfl,
            fun p hp => appendToBucket_grows alive ns n _ p (by simpa using hp)⟩

/-- C5, witness: the space-free name `x` interned (globally and under the
live, self-equal namespace `g`) into a fresh interpreter. -/
theorem symbol_interning_monotone_witness :
    hasSpace "x" = false ∧
    (("x" ∈ (Interpreter.new 0).symbol_table.global_symbols →
      (Symbol.new_global "x" (Interpreter.new 0)).2 = Interpreter.new 0) ∧
    ("x" ∉ (Interpreter.new 0).symbol_table.global_symbols →
      (Symbol.new_global "x" (Interpreter.new 0)).2.symbol_table.global_symbols =
        (Interpreter.new 0).symbol_table.global_symbols ++ ["x"] ∧
      (Symbol.new_global "x" (Interpreter.new 0)).2.symbol_table.symbols =
        (Interpreter.new 0).symbol_table.symbols) ∧
    (findBucket (fun _ => true) (Interpreter.new 0).symbol_table.symbols
        (.Global "g" 0) = none →
      symbolEq (fun _ => true) (.Global "g" 0) (.Global "g" 0) = true →
      (Symbol.new_local (fun _ => true) "x" (.Global "g" 0)
          (Interpreter.new 0)).2.symbol_table.symbols =
        (Interpreter.new 0).symbol_table.symbols ++ [(.Global "g" 0, ["x"])] ∧
      (Symbol.new_local (fun _ => true) "x" (.Global "g" 0)
          (Interpreter.new 0)).2.symbol_table.global_symbols =
        (Interpreter.new 0).symbol_table.global_symbols) ∧
    (findBucket (fun _ => true) (Interpreter.new 0).symbol_table.symbols
        (.Global "g" 0) = none →
      symbolEq (fun _ => true) (.Global "g" 0) (.Global "g" 0) = false →
      (Symbol.new_local (fun _ => true) "x" (.Global "g" 0)
          (Interpreter.new 0)).1 = none ∧
      (Symbol.new_local (fun _ => true) "x" (.Global "g" 0)
          (Interpreter.new 0)).2.symbol_table.symbols =
        (Interpreter.new 0).symbol_table.symbols ++ [(.Global "g" 0, [])] ∧
      (Symbol.new_local (fun _ => true) "x" (.Global "g" 0)
          (Interpreter.new 0)).2.symbol_table.global_symbols =
        (Interpreter.new 0).symbol_table.global_symbols) ∧
    (∀ q, findBucket (fun _ => true) (Interpreter.new 0).symbol_table.symbols
        (.Global "g" 0) = some q →
      ("x" ∈ q.2 →
        (Symbol.new_local (fun _ => true) "x" (.Global "g" 0)
            (Interpreter.new 0)).2 = Interpreter.new 0) ∧
      ("x" ∉ q.2 →
        findBucket (fun _ => true)
            (Symbol.new_local (fun _ => true) "x" (.Global "g" 0)
              (Interpreter.new 0)).2.symbol_table.symbols (.Global "g" 0) =
          some (q.1, q.2 ++ ["x"]))) ∧
    tableLE (Interpreter.new 0).symbol_table
      (Symbol.new_global "x" (Interpreter.new 0)).2.symbol_table ∧
    tableLE (Interpreter.new 0).symbol_table
      (Symbol.new_local (fun _ => true) "x" (.Global "g" 0)
        (Interpreter.new 0)).2.symbol_table) :=
  ⟨by decide,
    symbol_interning_monotone (fun _ => true) "x" (.Global "g" 0)
      (Interpreter.new 0) (by decide)⟩

/-- C1: the claim states that converting a `Value` to `OwnedValue` loses only
the runtime table reference and never the namespace chain. The source's
`From<Symbol> for OwnedSymbol` (which carries a `TODO: Fix for locals`
comment) instead converts every symbol to a *global* owned symbol holding
only the innermost name: the local symbol displayed as apostrophe-`foo::bar`
converts to the global owned symbol apostrophe-`bar`, and converting back
re-interns a global symbol, so the namespace chain is lost. This theorem
evaluates the code at that failing input. -/
theorem symbol_to_owned_drops_namespace :
    ownedFromSymbol (.Local "bar" (.Global "foo" 0) 0) =
      some (OwnedSymbol.Global "bar") ∧
    Symbol.display (.Local "bar" (.Global "foo" 0) 0) = "\x27foo::bar" ∧
    OwnedSymbol.display (.Global "bar") = "\x27bar" ∧
    valueToOwned (.symbol (.Local "bar" (.Global "foo" 0) 0)) =
      some (.symbol (OwnedSymbol.Global "bar")) ∧
    (Symbol.from_owned (fun _ => true) (OwnedSymbol.Global "bar")
        (Interpreter.new 0)).1 = some (.Global "bar" 0) := by
  refine ⟨by decide, by decide, by decide, ?_, rfl⟩
  simp [valueToOwned, ownedFromSymbol, OwnedSymbol.new_global, Symbol.get_name]
  decide

end Dermis
